import Mathlib

/-!
Shallow embedding of the `primitives` package (schema validator, shard batch,
window batch, timestamp normalisation) and proofs of the frozen claims about
it.

Modelling conventions:
* Python values that can appear as row fields, shard ids, timestamps or
  window bounds are modelled by the inductive `Value`.  A Python `datetime`
  is modelled at whole-second resolution by its wall-clock instant read as a
  UTC epoch count (`wall`) together with its optional UTC offset in seconds
  (`tz`); `tz = none` is a naive datetime.  Python floats are modelled as
  rationals (NaN/inf and rounding artefacts are out of scope for the claims).
* A row (Python `Mapping`) is an association list `Row`; callers supply
  mappings, so keys are unique in any reachable row, but no definition below
  depends on that.
* Raised exceptions become `Except Err` results; `Err` keeps the exception
  class and message.  Interpolated parts of the original messages (offending
  indices and reprs) are elided: theorems only depend on class and prefix.
* Python `==` on the values above is modelled by `pyEq`; note that Python
  equates numbers across `int`/`float`, while `type(x) is type(y)` (used for
  the window-bound kind check) distinguishes them.
-/

deriving instance DecidableEq for Except

/-- Python exception classes raised by the `primitives` package, with message. -/
inductive Err where
  | typeError (msg : String)
  | valueError (msg : String)
  | keyError (msg : String)
deriving Repr, DecidableEq

/-- Python values that flow through the batch primitives (row fields, shard
ids, timestamps, window bounds). -/
inductive Value where
  | vInt (n : Int)
  | vFloat (q : Rat)
  | vStr (s : String)
  | vNone
  | vDt (wall : Int) (tz : Option Int)
deriving Repr, DecidableEq

/-- Python runtime types of `Value`s, as compared by `type(x) is type(y)`. -/
inductive PyType where
  | int
  | float
  | str
  | noneType
  | datetime
deriving Repr, DecidableEq

/-- The `type()` of a value.  Note naive and aware datetimes share one type. -/
def Value.typeOf : Value → PyType
  | .vInt _ => .int
  | .vFloat _ => .float
  | .vStr _ => .str
  | .vNone => .noneType
  | .vDt _ _ => .datetime

/-- Python truthiness: `not value` is true exactly on these values
(`0`, `0.0`, the empty string, `None`; datetimes are always truthy). -/
def Value.falsy : Value → Bool
  | .vInt n => n == 0
  | .vFloat q => q == 0
  | .vStr s => s == ""
  | .vNone => true
  | .vDt _ _ => false

/-- Canonical key deciding Python `==` on our value universe: `int` and
`float` compare numerically across types, aware datetimes compare by instant,
naive datetimes by wall clock (naive never equals aware), everything else
structurally and never across categories. -/
def Value.eqKey : Value → (Rat ⊕ String ⊕ Unit ⊕ Int ⊕ Int)
  | .vInt n => Sum.inl (n : Rat)
  | .vFloat q => Sum.inl q
  | .vStr s => Sum.inr (Sum.inl s)
  | .vNone => Sum.inr (Sum.inr (Sum.inl ()))
  | .vDt w none => Sum.inr (Sum.inr (Sum.inr (Sum.inl w)))
  | .vDt w (some off) => Sum.inr (Sum.inr (Sum.inr (Sum.inr (w - off))))

/-- Python `==` on the modelled value universe. -/
def pyEq (a b : Value) : Bool :=
  decide (Value.eqKey a = Value.eqKey b)

/-- A row: a Python mapping from column names to values, in insertion order. -/
abbrev Row := List (String × Value)

/-- Ordered key tuple of a row (`tuple(row.keys())`). -/
def Row.keys (r : Row) : List String :=
  r.map Prod.fst

/-- Key membership test (`k in row` on a mapping). -/
def Row.hasKey : Row → String → Bool
  | [], _ => false
  | p :: ps, k => p.1 == k || Row.hasKey ps k

/-- Mapping lookup with `None` default (`row.get(k)`); total lookup
`row[k]` is only used after a membership check, where the two agree. -/
def Row.get : Row → String → Value
  | [], _ => .vNone
  | p :: ps, k => if p.1 = k then p.2 else Row.get ps k

/-- Update the value stored under `k`, keeping the key position
(`row[k] = v` on a dict already containing `k`). -/
def Row.set : Row → String → Value → Row
  | [], _, _ => []
  | p :: ps, k, v =>
      if p.1 = k then (p.1, v) :: Row.set ps k v else p :: Row.set ps k v

/-! ## time_utils.normalise_to_unix_ts -/

/-- Python `int(q)` on a float: truncation toward zero. -/
def truncToInt (q : Rat) : Int :=
  q.num.tdiv (q.den : Int)

/-- Embeds `time_utils.normalise_to_unix_ts`: falsy inputs raise
`ValueError("")`; ints/floats are truncated to int seconds; a naive datetime
gets UTC attached (epoch = wall clock read as UTC) and an aware one is
converted to UTC (epoch = wall − offset); anything else raises `TypeError`. -/
def normalise_to_unix_ts (value : Value) : Except Err Int :=
  if Value.falsy value then
    .error (.valueError "")
  else
    match value with
    | .vInt n => .ok n
    | .vFloat q => .ok (truncToInt q)
    | .vDt wall none => .ok wall
    | .vDt wall (some off) => .ok (wall - off)
    | _ => .error (.typeError "Expected int, float, or datetime.")

/-! ## SchemaValidator -/

/-- State of a constructed `SchemaValidator`: the schema tuple and the
ordering policy. -/
structure SchemaValidator where
  schema : List String
  strict_order : Bool
deriving Repr, DecidableEq

/-- Embeds `SchemaValidator.__init__`: rejects an empty schema, otherwise
stores the schema tuple and policy. -/
def mkSchemaValidator (schema : List String) (strict_order : Bool) :
    Except Err SchemaValidator :=
  if schema = [] then
    .error (.valueError "SchemaValidator: schema cannot be empty.")
  else
    .ok ⟨schema, strict_order⟩

/-- Embeds `SchemaValidator.validate_row` (the row is a mapping by type here,
so the `isinstance(row, Mapping)` guard cannot fire): under strict order the
key tuple must equal the schema tuple; otherwise the key sets must agree. -/
def SchemaValidator.validateRow (v : SchemaValidator) (row : Row) :
    Except Err Unit :=
  let keys := Row.keys row
  if v.strict_order then
    if v.schema = keys then .ok ()
    else .error (.valueError "SchemaValidator: strict order mismatch.")
  else
    if v.schema.toFinset = keys.toFinset then .ok ()
    else .error (.valueError "SchemaValidator: schema mismatch (missing or extra keys)")

/-! ## ShardBatch -/

/-- State of a constructed `ShardBatch`: defensively copied rows, the schema
tuple derived from the first row, and the shard identifier derived from the
first row (`None` for the degenerate empty batch). -/
structure ShardBatch where
  rows : List Row
  schema : List String
  shard_id : Value
deriving Repr, DecidableEq

/-- The per-row validation loop of `ShardBatch.__init__`: checks, in source
order, that the row has a `shard_id` key, that its key tuple equals the
derived schema, and that its `shard_id` value equals (`==`) the derived
shard id.  The offending index and reprs interpolated into the original
messages are elided. -/
def checkShardRows (schema : List String) (shard : Value) : List Row → Except Err Unit
  | [] => .ok ()
  | r :: rs =>
      if Row.hasKey r "shard_id" = false then
        .error (.valueError "Row is missing required shard_id column.")
      else if Row.keys r ≠ schema then
        .error (.valueError "Schema mismatch in ShardBatch initialisation.")
      else if pyEq (Row.get r "shard_id") shard = false then
        .error (.valueError "Shard ID mismatch in ShardBatch initialisation.")
      else
        checkShardRows schema shard rs

/-- Embeds `ShardBatch.__init__`: empty input yields the degenerate batch
(schema `()`, shard id `None`); otherwise schema and shard id are derived
from the first row and every row is validated against them.  The stored rows
are per-row copies of the input rows (value-equal, so represented as the
input list itself). -/
def mkShardBatch (rows : List Row) : Except Err ShardBatch :=
  match rows with
  | [] => .ok ⟨[], [], .vNone⟩
  | r0 :: _ => do
      let schema := Row.keys r0
      let shard := Row.get r0 "shard_id"
      checkShardRows schema shard rows
      .ok ⟨rows, schema, shard⟩

/-- Invariant satisfied by every reachable `ShardBatch` (constructed, sliced
or concatenated): each stored row has a `shard_id` key, its key tuple equals
the batch schema, and its shard value equals (`==`) the batch shard id. -/
abbrev ShardBatch.WF (b : ShardBatch) : Prop :=
  ∀ r ∈ b.rows,
    Row.hasKey r "shard_id" = true ∧
    Row.keys r = b.schema ∧
    pyEq (Row.get r "shard_id") b.shard_id = true

/-- Embeds the `ShardBatch + ShardBatch` branch of `ShardBatch.__add__`:
shard ids then schemas must match, and the result is rebuilt by the
constructor from the concatenated row list. -/
def ShardBatch.addBatch (a b : ShardBatch) : Except Err ShardBatch :=
  if pyEq a.shard_id b.shard_id = false then
    .error (.valueError "Cannot add ShardBatch instances with different shard IDs.")
  else if a.schema ≠ b.schema then
    .error (.valueError "Cannot add ShardBatch instances with different schemas.")
  else
    mkShardBatch (a.rows ++ b.rows)

/-- Embeds the slice branch of `ShardBatch.__getitem__`: `sliced` is the
already-computed Python list slice of the stored rows; the new batch is
rebuilt by the constructor and then its schema and shard id are force-set to
the parent values. -/
def ShardBatch.getitemSlice (b : ShardBatch) (sliced : List Row) : Except Err ShardBatch := do
  let nb ← mkShardBatch sliced
  .ok { nb with schema := b.schema, shard_id := b.shard_id }

/-! ## WindowBatch -/

/-- State of a constructed `WindowBatch`: normalised validated rows, both
bounds as stored integers, the schema tuple and the ordering policy (the
stored `SchemaValidator` is determined by the last two fields). -/
structure WindowBatch where
  rows : List Row
  window_start : Int
  window_end : Int
  schema : List String
  strict_order : Bool
deriving Repr, DecidableEq

/-- Embeds `WindowBatch._init_validator`: the schema must contain
`timestamp`, then a `SchemaValidator` is built from it. -/
def WindowBatch.initValidator (schema : List String) (strict_order : Bool) :
    Except Err SchemaValidator :=
  if "timestamp" ∉ schema then
    .error (.valueError "WindowBatch: schema must include timestamp column")
  else
    mkSchemaValidator schema strict_order

/-- Embeds `WindowBatch._init_window_bounds`: the two bounds must have the
same runtime type (`type(a) is type(b)`), both are normalised, and the
normalised start must be strictly below the normalised end. -/
def WindowBatch.initWindowBounds (window_start window_end : Value) :
    Except Err (Int × Int) :=
  if Value.typeOf window_start ≠ Value.typeOf window_end then
    .error (.typeError "WindowBatch: window_start and window_end must be of same type.")
  else do
    let start_norm ← normalise_to_unix_ts window_start
    let end_norm ← normalise_to_unix_ts window_end
    if start_norm ≥ end_norm then
      .error (.valueError "WindowBatch: window_start must be strictly less than window_end.")
    else
      .ok (start_norm, end_norm)

/-- One iteration of the row loop in `WindowBatch._init_rows` (the row is a
mapping by type here, so the `isinstance` guard cannot fire): the row must
have a `timestamp` key, its timestamp is normalised and bounds-checked
against the half-open window, and the copy with the normalised timestamp is
validated against the schema validator. -/
def WindowBatch.processRow (ws we : Int) (v : SchemaValidator) (row : Row) :
    Except Err Row :=
  if Row.hasKey row "timestamp" = false then
    .error (.valueError "WindowBatch: row missing timestamp column.")
  else do
    let ts ← normalise_to_unix_ts (Row.get row "timestamp")
    if ¬(ws ≤ ts ∧ ts < we) then
      .error (.valueError "WindowBatch: row timestamp outside window bounds.")
    else do
      SchemaValidator.validateRow v (Row.set row "timestamp" (.vInt ts))
      .ok (Row.set row "timestamp" (.vInt ts))

/-- Embeds the loop of `WindowBatch._init_rows`: rows are processed in
order, stopping at the first failure; on success the normalised copies are
collected in order. -/
def WindowBatch.initRows (ws we : Int) (v : SchemaValidator) :
    List Row → Except Err (List Row)
  | [] => .ok []
  | r :: rs => do
      let c ← WindowBatch.processRow ws we v r
      let cs ← WindowBatch.initRows ws we v rs
      .ok (c :: cs)

/-- Embeds `WindowBatch.__init__`: validator, bounds, then rows. -/
def mkWindowBatch (rows : List Row) (window_start window_end : Value)
    (schema : List String) (strict_order : Bool) : Except Err WindowBatch := do
  let v ← WindowBatch.initValidator schema strict_order
  let bounds ← WindowBatch.initWindowBounds window_start window_end
  let out ← WindowBatch.initRows bounds.1 bounds.2 v rows
  .ok ⟨out, bounds.1, bounds.2, v.schema, v.strict_order⟩

/-- Embeds the slice branch of `WindowBatch.__getitem__`: `sliced` is the
already-computed Python list slice of the stored rows; a new `WindowBatch`
is constructed from it with the stored integer bounds, schema and policy. -/
def WindowBatch.getitemSlice (b : WindowBatch) (sliced : List Row) :
    Except Err WindowBatch :=
  mkWindowBatch sliced (.vInt b.window_start) (.vInt b.window_end) b.schema b.strict_order

/-- Classifier for the timestamp-like inputs `normalise_to_unix_ts` is
documented to accept: raw epoch ints, raw epoch floats, or datetimes. -/
def Value.isTsKind : Value → Bool
  | .vInt _ => true
  | .vFloat _ => true
  | .vDt _ _ => true
  | _ => false

/-! ## Helper lemmas -/

theorem pyEq_refl (a : Value) : pyEq a a = true := by
  simp [pyEq]

theorem pyEq_symm {a b : Value} (h : pyEq a b = true) : pyEq b a = true := by
  simp only [pyEq, decide_eq_true_eq] at h ⊢
  exact h.symm

theorem pyEq_trans {a b c : Value} (h₁ : pyEq a b = true) (h₂ : pyEq b c = true) :
    pyEq a c = true := by
  simp only [pyEq, decide_eq_true_eq] at h₁ h₂ ⊢
  exact h₁.trans h₂

theorem Row.keys_set (r : Row) (k : String) (v : Value) :
    Row.keys (Row.set r k v) = Row.keys r := by
  induction r with
  | nil => rfl
  | cons p ps ih =>
      simp only [Row.keys] at ih
      by_cases h : p.1 = k <;> simp [Row.set, Row.keys, h, ih]

theorem Row.hasKey_set (r : Row) (k k' : String) (v : Value) :
    Row.hasKey (Row.set r k v) k' = Row.hasKey r k' := by
  induction r with
  | nil => rfl
  | cons p ps ih =>
      by_cases h : p.1 = k <;> simp [Row.set, Row.hasKey, h, ih]

theorem Row.get_set_self (r : Row) (k : String) (v : Value)
    (h : Row.hasKey r k = true) : Row.get (Row.set r k v) k = v := by
  induction r with
  | nil => simp [Row.hasKey] at h
  | cons p ps ih =>
      by_cases hp : p.1 = k
      · simp [Row.set, Row.get, hp]
      · have h' : Row.hasKey ps k = true := by
          simpa [Row.hasKey, hp] using h
        simp [Row.set, Row.get, hp, ih h']

theorem Row.set_set (r : Row) (k : String) (v : Value) :
    Row.set (Row.set r k v) k v = Row.set r k v := by
  induction r with
  | nil => rfl
  | cons p ps ih =>
      by_cases hp : p.1 = k <;> simp [Row.set, hp, ih]

theorem Row.hasKey_iff_mem (r : Row) (k : String) :
    Row.hasKey r k = true ↔ k ∈ Row.keys r := by
  induction r with
  | nil => simp [Row.hasKey, Row.keys]
  | cons p ps ih =>
      simp [Row.hasKey, Row.keys, ih]
      constructor
      · rintro (h | h)
        · exact Or.inl h.symm
        · exact Or.inr h
      · rintro (h | h)
        · exact Or.inl h.symm
        · exact Or.inr h

theorem checkShardRows_ok (schema : List String) (sh : Value) (rows : List Row)
    (h : ∀ r ∈ rows, Row.hasKey r "shard_id" = true ∧ Row.keys r = schema ∧
        pyEq (Row.get r "shard_id") sh = true) :
    checkShardRows schema sh rows = .ok () := by
  induction rows with
  | nil => rfl
  | cons r rs ih =>
      obtain ⟨h1, h2, h3⟩ := h r (by simp)
      simp only [checkShardRows, h1, h2, h3]
      simp only [Bool.true_eq_false, if_false, ne_eq, not_true_eq_false]
      exact ih (fun x hx => h x (by simp [hx]))

theorem mkShardBatch_ok_of_uniform (rows : List Row) (S : List String) (sh : Value)
    (h : ∀ r ∈ rows, Row.hasKey r "shard_id" = true ∧ Row.keys r = S ∧
        pyEq (Row.get r "shard_id") sh = true) :
    ∃ c, mkShardBatch rows = .ok c ∧ c.rows = rows := by
  cases rows with
  | nil => exact ⟨⟨[], [], .vNone⟩, rfl, rfl⟩
  | cons r0 rs =>
      obtain ⟨h01, h02, h03⟩ := h r0 (by simp)
      have hcheck : checkShardRows (Row.keys r0) (Row.get r0 "shard_id") (r0 :: rs) = .ok () := by
        apply checkShardRows_ok
        intro r hr
        obtain ⟨h1, h2, h3⟩ := h r hr
        exact ⟨h1, h2.trans h02.symm, pyEq_trans h3 (pyEq_symm h03)⟩
      refine ⟨⟨r0 :: rs, Row.keys r0, Row.get r0 "shard_id"⟩, ?_, rfl⟩
      simp only [mkShardBatch]
      rw [hcheck]
      rfl

theorem ShardBatch.getitemSlice_empty (b : ShardBatch) :
    ShardBatch.getitemSlice b [] = .ok ⟨[], b.schema, b.shard_id⟩ := by
  rfl

@[simp] theorem except_ok_bind {α β : Type} (a : α) (f : α → Except Err β) :
    (Except.ok a >>= f) = f a := rfl

@[simp] theorem except_error_bind {α β : Type} (e : Err) (f : α → Except Err β) :
    ((Except.error e : Except Err α) >>= f) = Except.error e := rfl

theorem normalise_tsKind (v : Value) (h : Value.isTsKind v = true) :
    (∃ t, normalise_to_unix_ts v = .ok t) ∨
      normalise_to_unix_ts v = .error (.valueError "") := by
  cases v with
  | vInt n =>
      by_cases h0 : n = 0
      · right; simp [normalise_to_unix_ts, Value.falsy, h0]
      · left; exact ⟨n, by simp [normalise_to_unix_ts, Value.falsy, h0]⟩
  | vFloat q =>
      by_cases h0 : q = 0
      · right; simp [normalise_to_unix_ts, Value.falsy, h0]
      · left; exact ⟨truncToInt q, by simp [normalise_to_unix_ts, Value.falsy, h0]⟩
  | vDt w tz =>
      left
      cases tz with
      | none => exact ⟨w, rfl⟩
      | some off => exact ⟨w - off, rfl⟩
  | vStr s => simp [Value.isTsKind] at h
  | vNone => simp [Value.isTsKind] at h

theorem processRow_ok_spec (ws we : Int) (v : SchemaValidator) (r c : Row)
    (h : WindowBatch.processRow ws we v r = .ok c) :
    ∃ ts : Int, Row.hasKey r "timestamp" = true ∧
      normalise_to_unix_ts (Row.get r "timestamp") = .ok ts ∧
      ws ≤ ts ∧ ts < we ∧
      c = Row.set r "timestamp" (.vInt ts) ∧
      SchemaValidator.validateRow v c = .ok () := by
  unfold WindowBatch.processRow at h
  cases hk : Row.hasKey r "timestamp" with
  | false => rw [hk] at h; simp at h
  | true =>
      rw [hk] at h
      rw [if_neg (by simp)] at h
      cases hn : normalise_to_unix_ts (Row.get r "timestamp") with
      | error e => rw [hn, except_error_bind] at h; simp at h
      | ok ts =>
          rw [hn, except_ok_bind] at h
          by_cases hw : ws ≤ ts ∧ ts < we
          · rw [if_neg (not_not_intro hw)] at h
            cases hv : SchemaValidator.validateRow v (Row.set r "timestamp" (.vInt ts)) with
            | error e => rw [hv, except_error_bind] at h; simp at h
            | ok u =>
                cases u
                rw [hv, except_ok_bind] at h
                have hc : c = Row.set r "timestamp" (.vInt ts) := by
                  injection h with h'
                  exact h'.symm
                subst hc
                exact ⟨ts, rfl, rfl, hw.1, hw.2, rfl, hv⟩
          · rw [if_pos hw] at h; simp at h

theorem initRows_invariant (ws we : Int) (v : SchemaValidator) (rows out : List Row)
    (h : WindowBatch.initRows ws we v rows = .ok out) :
    ∀ c ∈ out, ∃ ts : Int,
      Row.get c "timestamp" = .vInt ts ∧ ws ≤ ts ∧ ts < we ∧
      Row.hasKey c "timestamp" = true ∧
      SchemaValidator.validateRow v c = .ok () ∧
      Row.set c "timestamp" (.vInt ts) = c := by
  induction rows generalizing out with
  | nil =>
      rw [WindowBatch.initRows] at h
      injection h with h'
      subst h'
      intro c hc
      cases hc
  | cons r rs ih =>
      rw [WindowBatch.initRows] at h
      cases hp : WindowBatch.processRow ws we v r with
      | error e => rw [hp, except_error_bind] at h; simp at h
      | ok c0 =>
          rw [hp, except_ok_bind] at h
          cases hrs : WindowBatch.initRows ws we v rs with
          | error e => rw [hrs, except_error_bind] at h; simp at h
          | ok cs =>
              rw [hrs, except_ok_bind] at h
              have hout : out = c0 :: cs := by
                injection h with h'
                exact h'.symm
              subst hout
              intro c hc
              rcases List.mem_cons.mp hc with rfl | hmem
              · obtain ⟨ts, hkey, hn, h1, h2, hcopy, hval⟩ :=
                  processRow_ok_spec ws we v r c hp
                refine ⟨ts, ?_, h1, h2, ?_, hval, ?_⟩
                · rw [hcopy]
                  exact Row.get_set_self r "timestamp" (.vInt ts) hkey
                · rw [hcopy, Row.hasKey_set]
                  exact hkey
                · rw [hcopy]
                  exact Row.set_set r "timestamp" (.vInt ts)
              · exact ih cs hrs c hmem

theorem processRow_fixed (ws we : Int) (v : SchemaValidator) (c : Row) (ts : Int)
    (hget : Row.get c "timestamp" = .vInt ts) (hne : ts ≠ 0)
    (h1 : ws ≤ ts) (h2 : ts < we)
    (hkey : Row.hasKey c "timestamp" = true)
    (hval : SchemaValidator.validateRow v c = .ok ())
    (hset : Row.set c "timestamp" (.vInt ts) = c) :
    WindowBatch.processRow ws we v c = .ok c := by
  have hnorm : normalise_to_unix_ts (.vInt ts) = .ok ts := by
    simp [normalise_to_unix_ts, Value.falsy, hne]
  unfold WindowBatch.processRow
  rw [hkey]
  rw [if_neg (by simp)]
  rw [hget, hnorm, except_ok_bind]
  rw [if_neg (not_not_intro ⟨h1, h2⟩)]
  rw [hset, hval, except_ok_bind]

theorem initRows_of_forall (ws we : Int) (v : SchemaValidator) (sub : List Row)
    (h : ∀ r ∈ sub, WindowBatch.processRow ws we v r = .ok r) :
    WindowBatch.initRows ws we v sub = .ok sub := by
  induction sub with
  | nil => rfl
  | cons r rs ih =>
      rw [WindowBatch.initRows]
      rw [h r (by simp), except_ok_bind]
      rw [ih (fun x hx => h x (by simp [hx])), except_ok_bind]

theorem initWindowBounds_ok_lt (ws we : Value) (p : Int × Int)
    (h : WindowBatch.initWindowBounds ws we = .ok p) : p.1 < p.2 := by
  unfold WindowBatch.initWindowBounds at h
  by_cases ht : Value.typeOf ws = Value.typeOf we
  · rw [if_neg (not_not_intro ht)] at h
    cases h1 : normalise_to_unix_ts ws with
    | error e => rw [h1, except_error_bind] at h; simp at h
    | ok s =>
        rw [h1, except_ok_bind] at h
        cases h2 : normalise_to_unix_ts we with
        | error e => rw [h2, except_error_bind] at h; simp at h
        | ok e =>
            rw [h2, except_ok_bind] at h
            by_cases hge : s ≥ e
            · rw [if_pos hge] at h; simp at h
            · rw [if_neg hge] at h
              injection h with h'
              subst h'
              omega
  · rw [if_pos ht] at h; simp at h

theorem mkWindowBatch_ok_spec (rows : List Row) (ws we : Value) (schema : List String)
    (so : Bool) (b : WindowBatch) (h : mkWindowBatch rows ws we schema so = .ok b) :
    b.schema = schema ∧ b.strict_order = so ∧ "timestamp" ∈ schema ∧ schema ≠ [] ∧
    b.window_start < b.window_end ∧
    WindowBatch.initRows b.window_start b.window_end ⟨schema, so⟩ rows = .ok b.rows := by
  unfold mkWindowBatch WindowBatch.initValidator mkSchemaValidator at h
  by_cases ht : "timestamp" ∈ schema
  · have hs : schema ≠ [] := by
      intro he
      subst he
      simp at ht
    rw [if_neg (not_not_intro ht), if_neg hs, except_ok_bind] at h
    cases hbo : WindowBatch.initWindowBounds ws we with
    | error e => rw [hbo, except_error_bind] at h; simp at h
    | ok bounds =>
        rw [hbo, except_ok_bind] at h
        cases hrows : WindowBatch.initRows bounds.1 bounds.2 ⟨schema, so⟩ rows with
        | error e => rw [hrows, except_error_bind] at h; simp at h
        | ok out =>
            rw [hrows, except_ok_bind] at h
            have hb : b = ⟨out, bounds.1, bounds.2, schema, so⟩ := by
              injection h with h'
              exact h'.symm
            subst hb
            exact ⟨rfl, rfl, ht, hs, initWindowBounds_ok_lt ws we bounds hbo, hrows⟩
  · rw [if_pos ht, except_error_bind] at h; simp at h

/-! ## Claim theorems -/

/-- C4 (counterexample): the claim "normalising any integer epoch value
returns it unchanged" fails at the concrete input `0`: the falsy guard in
`normalise_to_unix_ts` raises a value error instead of returning `0`. -/
theorem C4_counterexample : normalise_to_unix_ts (.vInt 0) ≠ .ok 0 := by
  decide

/-- C4 (amended): normalising an already-integer epoch value returns that
same integer unchanged, for every nonzero integer; `0` itself is rejected by
the falsy guard. -/
theorem C4_roundtrip_nonzero_int (n : Int) (h : n ≠ 0) :
    normalise_to_unix_ts (.vInt n) = .ok n := by
  simp [normalise_to_unix_ts, Value.falsy, h]

/-- C4 witness: the amended round-trip at the concrete input `3`. -/
theorem C4_witness : normalise_to_unix_ts (.vInt 3) = .ok 3 :=
  C4_roundtrip_nonzero_int 3 (by decide)

/-- C5: every falsy input value (zero, an empty value, or the null
sentinel) makes `normalise_to_unix_ts` fail with a value error rather than
return an epoch value; in particular epoch `0` is rejected. -/
theorem C5_falsy_rejected (v : Value) (h : Value.falsy v = true) :
    normalise_to_unix_ts v = .error (.valueError "") := by
  simp [normalise_to_unix_ts, h]

/-- C5 witness: epoch value `0` itself is falsy and is rejected with a value
error. -/
theorem C5_witness :
    Value.falsy (.vInt 0) = true ∧
      normalise_to_unix_ts (.vInt 0) = .error (.valueError "") :=
  ⟨rfl, C5_falsy_rejected (.vInt 0) rfl⟩

/-- C10: `SchemaValidator` construction fails with a value error exactly when
the supplied schema is empty, and succeeds (storing the schema verbatim,
duplicates included) exactly when it is non-empty. -/
theorem C10_empty_schema_iff (schema : List String) (strict_order : Bool) :
    (mkSchemaValidator schema strict_order =
        .error (.valueError "SchemaValidator: schema cannot be empty.") ↔ schema = [])
    ∧ (mkSchemaValidator schema strict_order = .ok ⟨schema, strict_order⟩ ↔ schema ≠ []) := by
  by_cases h : schema = [] <;> simp [mkSchemaValidator, h]

/-- C10 witness: a schema with duplicate column names is accepted —
uniqueness is never enforced. -/
theorem C10_witness : mkSchemaValidator ["a", "a"] true = .ok ⟨["a", "a"], true⟩ :=
  (C10_empty_schema_iff ["a", "a"] true).2.mpr (by decide)

/-- C6: for a validator constructed with `strict_order = false`,
`validate_row` succeeds exactly when the row's key set equals the schema's
key set; every permutation of the schema's keys validates, and any added or
removed key fails with a value error regardless of order. -/
theorem C6_set_order_insensitive (s : List String) (v : SchemaValidator)
    (hmk : mkSchemaValidator s false = .ok v) (row : Row) :
    (SchemaValidator.validateRow v row = .ok () ↔ (Row.keys row).toFinset = s.toFinset)
    ∧ ((Row.keys row).Perm s → SchemaValidator.validateRow v row = .ok ())
    ∧ ((Row.keys row).toFinset ≠ s.toFinset →
        SchemaValidator.validateRow v row =
          .error (.valueError "SchemaValidator: schema mismatch (missing or extra keys)")) := by
  have hs : s ≠ [] := by
    intro he
    subst he
    simp [mkSchemaValidator] at hmk
  have hv : v = ⟨s, false⟩ := by
    unfold mkSchemaValidator at hmk
    rw [if_neg hs] at hmk
    injection hmk with h'
    exact h'.symm
  subst hv
  refine ⟨?_, ?_, ?_⟩
  · by_cases he : s.toFinset = (Row.keys row).toFinset <;>
      simp [SchemaValidator.validateRow, he, eq_comm]
  · intro hperm
    have he : s.toFinset = (Row.keys row).toFinset := by
      ext a
      simp [hperm.mem_iff]
    simp [SchemaValidator.validateRow, he]
  · intro hne
    have he : ¬(s.toFinset = (Row.keys row).toFinset) := fun he => hne he.symm
    simp [SchemaValidator.validateRow, he]

/-- C6 witness: with schema `["a", "b"]` and `strict_order = false`, the
permuted row `{"b": 1, "a": 2}` validates. -/
theorem C6_witness :
    SchemaValidator.validateRow ⟨["a", "b"], false⟩ [("b", .vInt 1), ("a", .vInt 2)] = .ok () :=
  (C6_set_order_insensitive ["a", "b"] _ rfl [("b", .vInt 1), ("a", .vInt 2)]).1.mpr (by decide)

/-- C3 (counterexample): the claim says that two raw epoch numbers of mixed
numeric type (one int, one float) pass the kind check and construction
proceeds to normalisation; in fact `type(window_start) is not
type(window_end)` fires and construction fails with a type error. -/
theorem C3_counterexample :
    mkWindowBatch [] (.vInt 1) (.vFloat 2) ["timestamp"] true =
      .error (.typeError "WindowBatch: window_start and window_end must be of same type.") := by
  decide

/-- C3 (amended): for bounds of timestamp-like kinds (int, float or
datetime), window-bound validation fails with a type error exactly when the
two bounds have different exact runtime types — so int/float mixes are
rejected, not accepted as the claim states. -/
theorem C3_exact_type_check (ws we : Value)
    (h1 : Value.isTsKind ws = true) (h2 : Value.isTsKind we = true) :
    (∃ m, WindowBatch.initWindowBounds ws we = .error (.typeError m)) ↔
      Value.typeOf ws ≠ Value.typeOf we := by
  constructor
  · rintro ⟨m, hm⟩ heq
    rw [WindowBatch.initWindowBounds, if_neg (not_not_intro heq)] at hm
    rcases normalise_tsKind ws h1 with ⟨t1, e1⟩ | e1
    · rw [e1, except_ok_bind] at hm
      rcases normalise_tsKind we h2 with ⟨t2, e2⟩ | e2
      · rw [e2, except_ok_bind] at hm
        by_cases hge : t1 ≥ t2
        · rw [if_pos hge] at hm
          simp at hm
        · rw [if_neg hge] at hm
          simp at hm
      · rw [e2, except_error_bind] at hm
        simp at hm
    · rw [e1, except_error_bind] at hm
      simp at hm
  · intro hne
    refine ⟨"WindowBatch: window_start and window_end must be of same type.", ?_⟩
    rw [WindowBatch.initWindowBounds, if_pos hne]

/-- C3 witness: the amended statement at the concrete mixed-numeric bounds
`(1 : int, 2.0 : float)`. -/
theorem C3_witness :
    (∃ m, WindowBatch.initWindowBounds (.vInt 1) (.vFloat 2) = .error (.typeError m)) ↔
      Value.typeOf (.vInt 1) ≠ Value.typeOf (.vFloat 2) :=
  C3_exact_type_check (.vInt 1) (.vFloat 2) rfl rfl

/-- C8: a non-empty row sequence whose rows all share one key order
(containing `shard_id`) and all carry the same falsy shard id value (such as
`0` or `""`) constructs successfully, and the batch's shard id is that falsy
value — agreement is decided by equality, never truthiness. -/
theorem C8_falsy_shard_id_ok (r0 : Row) (rs : List Row)
    (hkeys : ∀ r ∈ r0 :: rs, Row.keys r = Row.keys r0)
    (hid : "shard_id" ∈ Row.keys r0)
    (hshard : ∀ r ∈ r0 :: rs, Row.get r "shard_id" = Row.get r0 "shard_id")
    (_hfalsy : Value.falsy (Row.get r0 "shard_id") = true) :
    mkShardBatch (r0 :: rs) = .ok ⟨r0 :: rs, Row.keys r0, Row.get r0 "shard_id"⟩ := by
  have hcheck : checkShardRows (Row.keys r0) (Row.get r0 "shard_id") (r0 :: rs) = .ok () := by
    apply checkShardRows_ok
    intro r hr
    refine ⟨?_, hkeys r hr, ?_⟩
    · rw [Row.hasKey_iff_mem, hkeys r hr]
      exact hid
    · rw [hshard r hr]
      exact pyEq_refl _
  simp only [mkShardBatch]
  rw [hcheck]
  rfl

/-- C8 witness: two rows sharing the falsy shard id `0` build a batch whose
shard id is `0`. -/
theorem C8_witness :
    mkShardBatch
        [[("shard_id", .vInt 0), ("x", .vInt 1)], [("shard_id", .vInt 0), ("x", .vInt 2)]] =
      .ok ⟨[[("shard_id", .vInt 0), ("x", .vInt 1)], [("shard_id", .vInt 0), ("x", .vInt 2)]],
           ["shard_id", "x"], .vInt 0⟩ :=
  C8_falsy_shard_id_ok [("shard_id", .vInt 0), ("x", .vInt 1)]
    [[("shard_id", .vInt 0), ("x", .vInt 2)]]
    (by decide) (by decide) (by decide) (by decide)

/-- C9: concatenating two empty `ShardBatch`es (for example empty slices of a
parent, which keep the parent's schema and shard id) succeeds whenever their
shard ids and schemas agree, but always yields the degenerate batch with
schema `()` and shard id `None`, discarding the operands' metadata, because
`__add__` rebuilds the result from the combined row list alone. -/
theorem C9_empty_add_degenerate (a b : ShardBatch)
    (ha : a.rows = []) (hb : b.rows = [])
    (hsh : pyEq a.shard_id b.shard_id = true) (hsc : a.schema = b.schema) :
    ShardBatch.addBatch a b = .ok ⟨[], [], .vNone⟩ := by
  unfold ShardBatch.addBatch
  rw [hsh]
  rw [if_neg (by simp)]
  rw [if_neg (not_not_intro hsc)]
  rw [ha, hb]
  rfl

/-- C9 witness: two empty batches carrying the non-degenerate metadata of a
sliced parent (schema `("shard_id", "x")`, shard id `3`) concatenate to the
degenerate batch. -/
theorem C9_witness :
    ShardBatch.addBatch ⟨[], ["shard_id", "x"], .vInt 3⟩ ⟨[], ["shard_id", "x"], .vInt 3⟩ =
      .ok ⟨[], [], .vNone⟩ :=
  C9_empty_add_degenerate ⟨[], ["shard_id", "x"], .vInt 3⟩ ⟨[], ["shard_id", "x"], .vInt 3⟩
    rfl rfl (by decide) rfl

/-- C7: for well-formed `ShardBatch`es with equal shard id and equal schema,
`a + b` returns a new batch whose rows are `a`'s rows followed by `b`'s rows
(so its length is the sum of the lengths); with a differing shard id or
schema, `a + b` fails with a value error. -/
theorem C7_add_concat (a b : ShardBatch) (ha : a.WF) (hb : b.WF) :
    (pyEq a.shard_id b.shard_id = true → a.schema = b.schema →
        ∃ c, ShardBatch.addBatch a b = .ok c ∧ c.rows = a.rows ++ b.rows ∧
          c.rows.length = a.rows.length + b.rows.length)
    ∧ ((pyEq a.shard_id b.shard_id = false ∨ a.schema ≠ b.schema) →
        ∃ m, ShardBatch.addBatch a b = .error (.valueError m)) := by
  constructor
  · intro hsh hsc
    have huni : ∀ r ∈ a.rows ++ b.rows, Row.hasKey r "shard_id" = true ∧
        Row.keys r = a.schema ∧ pyEq (Row.get r "shard_id") a.shard_id = true := by
      intro r hr
      rcases List.mem_append.mp hr with h | h
      · exact ha r h
      · obtain ⟨h1, h2, h3⟩ := hb r h
        exact ⟨h1, h2.trans hsc.symm, pyEq_trans h3 (pyEq_symm hsh)⟩
    obtain ⟨c, hc, hrows⟩ := mkShardBatch_ok_of_uniform (a.rows ++ b.rows) a.schema a.shard_id huni
    refine ⟨c, ?_, hrows, by rw [hrows]; exact List.length_append _ _⟩
    unfold ShardBatch.addBatch
    rw [hsh]
    rw [if_neg (by simp)]
    rw [if_neg (not_not_intro hsc)]
    exact hc
  · rintro (h | h)
    · exact ⟨"Cannot add ShardBatch instances with different shard IDs.",
        by unfold ShardBatch.addBatch; rw [if_pos h]⟩
    · by_cases hq : pyEq a.shard_id b.shard_id = false
      · exact ⟨"Cannot add ShardBatch instances with different shard IDs.",
          by unfold ShardBatch.addBatch; rw [if_pos hq]⟩
      · exact ⟨"Cannot add ShardBatch instances with different schemas.",
          by unfold ShardBatch.addBatch; rw [if_neg hq, if_pos h]⟩

/-- C7 witness: two singleton batches with shard id `3` concatenate to a
two-row batch in argument order. -/
theorem C7_witness :
    ∃ c, ShardBatch.addBatch
          ⟨[[("shard_id", .vInt 3), ("x", .vInt 1)]], ["shard_id", "x"], .vInt 3⟩
          ⟨[[("shard_id", .vInt 3), ("x", .vInt 2)]], ["shard_id", "x"], .vInt 3⟩ = .ok c ∧
      c.rows = [[("shard_id", .vInt 3), ("x", .vInt 1)], [("shard_id", .vInt 3), ("x", .vInt 2)]] ∧
      c.rows.length = 2 :=
  (C7_add_concat
      ⟨[[("shard_id", .vInt 3), ("x", .vInt 1)]], ["shard_id", "x"], .vInt 3⟩
      ⟨[[("shard_id", .vInt 3), ("x", .vInt 2)]], ["shard_id", "x"], .vInt 3⟩
      (by decide) (by decide)).1 (by decide) rfl

theorem initRows_error_of_mem (ws we : Int) (v : SchemaValidator) (row : Row)
    (hproc : ∀ c, WindowBatch.processRow ws we v row ≠ .ok c) :
    ∀ rows out, row ∈ rows → WindowBatch.initRows ws we v rows ≠ .ok out := by
  intro rows
  induction rows with
  | nil =>
      intro out hmem
      cases hmem
  | cons r rs ih =>
      intro out hmem hok
      rw [WindowBatch.initRows] at hok
      rcases List.mem_cons.mp hmem with heq | hmem'
      · subst heq
        cases hp : WindowBatch.processRow ws we v row with
        | error e => rw [hp, except_error_bind] at hok; simp at hok
        | ok c => exact hproc c hp
      · cases hp : WindowBatch.processRow ws we v r with
        | error e => rw [hp, except_error_bind] at hok; simp at hok
        | ok c =>
            rw [hp, except_ok_bind] at hok
            cases hrs : WindowBatch.initRows ws we v rs with
            | error e => rw [hrs, except_error_bind] at hok; simp at hok
            | ok cs => exact ih cs hmem' hrs

/-- C1: row validation enforces the half-open interval.  A row whose
normalised timestamp equals `window_start` is accepted (given it passes the
schema validator, as every accepted row must); a row whose normalised
timestamp equals `window_end`, exceeds it, or is below `window_start` makes
the row loop fail with a value error, and no batch containing that row is
ever produced. -/
theorem C1_half_open_window (ws we : Int) (v : SchemaValidator) (row : Row) (ts : Int)
    (hwin : ws < we)
    (hkey : Row.hasKey row "timestamp" = true)
    (hnorm : normalise_to_unix_ts (Row.get row "timestamp") = .ok ts) :
    (ts = ws → SchemaValidator.validateRow v (Row.set row "timestamp" (.vInt ts)) = .ok () →
        WindowBatch.processRow ws we v row = .ok (Row.set row "timestamp" (.vInt ts)))
    ∧ ((ts = we ∨ we < ts ∨ ts < ws) →
        WindowBatch.processRow ws we v row =
          .error (.valueError "WindowBatch: row timestamp outside window bounds.") ∧
        ∀ rows out, row ∈ rows → WindowBatch.initRows ws we v rows ≠ .ok out) := by
  constructor
  · intro hts hval
    unfold WindowBatch.processRow
    rw [hkey, if_neg (by simp), hnorm, except_ok_bind]
    rw [if_neg (not_not_intro ⟨by omega, by omega⟩)]
    rw [hval, except_ok_bind]
  · intro hout
    have hcond : ¬(ws ≤ ts ∧ ts < we) := by omega
    have hproc : WindowBatch.processRow ws we v row =
        .error (.valueError "WindowBatch: row timestamp outside window bounds.") := by
      unfold WindowBatch.processRow
      rw [hkey, if_neg (by simp), hnorm, except_ok_bind, if_pos hcond]
    refine ⟨hproc, initRows_error_of_mem ws we v row ?_⟩
    intro c hc
    rw [hproc] at hc
    simp at hc

/-- C1 witness: with window `[10, 20)` and schema `["timestamp"]`, a row at
timestamp `10` is accepted and a row at timestamp `20` is rejected with a
value error. -/
theorem C1_witness :
    WindowBatch.processRow 10 20 ⟨["timestamp"], true⟩ [("timestamp", .vInt 10)] =
        .ok [("timestamp", .vInt 10)] ∧
      WindowBatch.processRow 10 20 ⟨["timestamp"], true⟩ [("timestamp", .vInt 20)] =
        .error (.valueError "WindowBatch: row timestamp outside window bounds.") :=
  ⟨(C1_half_open_window 10 20 ⟨["timestamp"], true⟩ [("timestamp", .vInt 10)] 10
      (by decide) (by decide) (by decide)).1 rfl (by decide),
   ((C1_half_open_window 10 20 ⟨["timestamp"], true⟩ [("timestamp", .vInt 20)] 20
      (by decide) (by decide) (by decide)).2 (Or.inl rfl)).1⟩

/-- C2 (counterexample): slicing a successfully constructed `WindowBatch` can
fail.  A window built from naive datetimes at the Unix epoch normalises its
start bound to `0`; the slice re-runs construction with the stored integer
bounds, and `normalise_to_unix_ts 0` hits the falsy guard and raises a value
error — so `b[s]` is not total on constructed batches. -/
theorem C2_counterexample :
    mkWindowBatch [] (.vDt 0 none) (.vDt 1 none) ["timestamp"] true =
        .ok ⟨[], 0, 1, ["timestamp"], true⟩ ∧
      WindowBatch.getitemSlice ⟨[], 0, 1, ["timestamp"], true⟩ [] =
        .error (.valueError "") := by
  constructor <;> decide

/-- C2 (amended): for every constructed `WindowBatch` whose stored bounds and
stored row timestamps are all nonzero (the only values the falsy guard can
re-reject), taking any selection of stored rows — in particular any slice —
re-validates successfully and yields a new batch with exactly those rows and
the same window bounds, schema and strict-order policy. -/
theorem C2_slice_guarded (rows : List Row) (ws we : Value) (schema : List String)
    (so : Bool) (b : WindowBatch)
    (hmk : mkWindowBatch rows ws we schema so = .ok b)
    (hws : b.window_start ≠ 0) (hwe : b.window_end ≠ 0)
    (hts : ∀ r ∈ b.rows, Row.get r "timestamp" ≠ .vInt 0)
    (sub : List Row) (hsub : ∀ r ∈ sub, r ∈ b.rows) :
    WindowBatch.getitemSlice b sub =
      .ok ⟨sub, b.window_start, b.window_end, b.schema, b.strict_order⟩ := by
  obtain ⟨hbs, hbo, hmem, hsne, hlt, hrows⟩ := mkWindowBatch_ok_spec rows ws we schema so b hmk
  have hfix : ∀ r ∈ sub,
      WindowBatch.processRow b.window_start b.window_end ⟨schema, so⟩ r = .ok r := by
    intro r hr
    obtain ⟨ts, hget, h1, h2, hkey, hval, hset⟩ :=
      initRows_invariant b.window_start b.window_end ⟨schema, so⟩ rows b.rows hrows r (hsub r hr)
    have hne : ts ≠ 0 := by
      intro he
      subst he
      exact hts r (hsub r hr) hget
    exact processRow_fixed b.window_start b.window_end ⟨schema, so⟩ r ts
      hget hne h1 h2 hkey hval hset
  have hinit := initRows_of_forall b.window_start b.window_end ⟨schema, so⟩ sub hfix
  have hbounds : WindowBatch.initWindowBounds (.vInt b.window_start) (.vInt b.window_end) =
      .ok (b.window_start, b.window_end) := by
    have h1 : normalise_to_unix_ts (.vInt b.window_start) = .ok b.window_start := by
      simp [normalise_to_unix_ts, Value.falsy, hws]
    have h2 : normalise_to_unix_ts (.vInt b.window_end) = .ok b.window_end := by
      simp [normalise_to_unix_ts, Value.falsy, hwe]
    have hty : (Value.vInt b.window_start).typeOf = (Value.vInt b.window_end).typeOf := rfl
    unfold WindowBatch.initWindowBounds
    rw [if_neg (not_not_intro hty), h1, except_ok_bind, h2, except_ok_bind]
    rw [if_neg (by omega)]
  unfold WindowBatch.getitemSlice mkWindowBatch WindowBatch.initValidator mkSchemaValidator
  rw [hbs, hbo]
  rw [if_neg (not_not_intro hmem), if_neg hsne, except_ok_bind]
  simp only [hbounds, except_ok_bind]
  simp only [hinit, except_ok_bind]

/-- C2 witness: slicing the full row list of a concrete epoch-range batch
(bounds and timestamps nonzero) succeeds and reproduces the batch. -/
theorem C2_witness :
    WindowBatch.getitemSlice
        ⟨[[("timestamp", .vInt 1700000010)]], 1700000000, 1700001000, ["timestamp"], true⟩
        [[("timestamp", .vInt 1700000010)]] =
      .ok ⟨[[("timestamp", .vInt 1700000010)]], 1700000000, 1700001000, ["timestamp"], true⟩ :=
  C2_slice_guarded [[("timestamp", .vInt 1700000010)]] (.vInt 1700000000) (.vInt 1700001000)
    ["timestamp"] true
    ⟨[[("timestamp", .vInt 1700000010)]], 1700000000, 1700001000, ["timestamp"], true⟩
    (by decide) (by decide) (by decide) (by decide)
    [[("timestamp", .vInt 1700000010)]] (by decide)
